import Mathlib

/-!
Verification of the streaming-session protocol client in
`src/app/static/app.js` (offciatool-openclaw-agent).

The development shallowly embeds the core of the client:
the SSE event-frame decoder (`parseSseEventBlock`, the chunk loop of
`streamChatRequest`), the per-session in-flight registry
(`isSessionSending` and the guard/add/delete in `sendMessage`), the
run-stage mapping (`applyBackendStage`), the token-stats rendering
(`renderTokenStats`, `refreshTokenStatsFromServer`, the clear-stats
handler) and the attachment reconciliation step of `sendMessage`.

Byte streams are modelled as `List Char`; the frames in all statements
are ASCII, where JS string indices and bytes coincide (the JS side uses
`TextDecoder("utf-8", {stream:true})`, which never splits a code point
across chunks).
-/

namespace OfficetoolClient

/-- Whitespace recognised by JavaScript `trim`/`trimStart` on the ASCII range. -/
def isWsChar (c : Char) : Bool :=
  c = ' ' || c = '\t' || c = '\n' || c = '\r' || c = '\x0b' || c = '\x0c'

/-- JS `String.prototype.trimStart` on ASCII text. -/
def jsTrimStart (l : List Char) : List Char :=
  l.dropWhile isWsChar

/-- JS `String.prototype.trimEnd` on ASCII text. -/
def jsTrimEnd (l : List Char) : List Char :=
  (l.reverse.dropWhile isWsChar).reverse

/-- JS `String.prototype.trim` on ASCII text. -/
def jsTrim (l : List Char) : List Char :=
  jsTrimEnd (jsTrimStart l)

/-- JS `String(s).trim()` lifted to Lean strings (used for session keys and
stage codes). -/
def jsTrimString (s : String) : String :=
  ⟨jsTrim s.data⟩

/-- One pass of `chunk.replace(/\r\n/g, "\n")` from `streamChatRequest`
(line 512): the global regex replaces each left-most, non-overlapping
CRLF pair by LF in a single left-to-right scan. -/
def normNewlines : List Char → List Char
  | [] => []
  | [c] => [c]
  | c :: d :: rest =>
    if c = '\r' ∧ d = '\n' then '\n' :: normNewlines rest
    else c :: normNewlines (d :: rest)

/-- `buffer.indexOf("\n\n")` plus the two slices taken in
`streamChatRequest` (lines 514-517): `some (pre, post)` when the buffer
contains a blank-line delimiter, where `pre` is `buffer.slice(0, splitAt)`
and `post` is `buffer.slice(splitAt + 2)`. -/
def findBlockSplit : List Char → Option (List Char × List Char)
  | [] => none
  | [_] => none
  | c :: d :: rest =>
    if c = '\n' ∧ d = '\n' then some ([], rest)
    else
      match findBlockSplit (d :: rest) with
      | none => none
      | some (pre, post) => some (c :: pre, post)

theorem findBlockSplit_some (l : List Char) :
    ∀ pre post, findBlockSplit l = some (pre, post) →
      l = pre ++ '\n' :: '\n' :: post := by
  induction l with
  | nil => intro pre post h; simp [findBlockSplit] at h
  | cons c tail ih =>
    intro pre post h
    cases tail with
    | nil => simp [findBlockSplit] at h
    | cons d rest =>
      by_cases hc : c = '\n' ∧ d = '\n'
      · simp [findBlockSplit, hc] at h
        obtain ⟨hpre, hpost⟩ := h
        subst hpre; subst hpost
        simp [hc.1, hc.2]
      · simp [findBlockSplit, hc] at h
        cases hrec : findBlockSplit (d :: rest) with
        | none => rw [hrec] at h; simp at h
        | some pq =>
          obtain ⟨p, q⟩ := pq
          rw [hrec] at h
          simp at h
          obtain ⟨hpre, hpost⟩ := h
          subst hpre; subst hpost
          have := ih p q hrec
          rw [List.cons_append, ← this]

theorem findBlockSplit_append (l₁ l₂ : List Char) :
    ∀ pre post, findBlockSplit l₁ = some (pre, post) →
      findBlockSplit (l₁ ++ l₂) = some (pre, post ++ l₂) := by
  induction l₁ with
  | nil => intro pre post h; simp [findBlockSplit] at h
  | cons c tail ih =>
    intro pre post h
    cases tail with
    | nil => simp [findBlockSplit] at h
    | cons d rest =>
      by_cases hc : c = '\n' ∧ d = '\n'
      · simp [findBlockSplit, hc] at h
        obtain ⟨hpre, hpost⟩ := h
        subst hpre; subst hpost
        simp [findBlockSplit, hc]
      · simp [findBlockSplit, hc] at h
        cases hrec : findBlockSplit (d :: rest) with
        | none => rw [hrec] at h; simp at h
        | some pq =>
          obtain ⟨p, q⟩ := pq
          rw [hrec] at h
          simp at h
          obtain ⟨hpre, hpost⟩ := h
          subst hpre; subst hpost
          have hr := ih p q hrec
          have : (c :: d :: rest) ++ l₂ = c :: d :: (rest ++ l₂) := by simp
          rw [this]
          simp [findBlockSplit, hc]
          rw [show d :: (rest ++ l₂) = (d :: rest) ++ l₂ by simp, hr]

theorem findBlockSplit_post_length (l pre post : List Char)
    (h : findBlockSplit l = some (pre, post)) : post.length + 2 ≤ l.length := by
  have := findBlockSplit_some l pre post h
  subst this
  simp only [List.length_append, List.length_cons]
  omega

/-- Fuel-indexed form of the block-extraction loop; the fuel only bounds
the number of loop iterations (each extracted block consumes at least
the two delimiter characters, so `l.length` iterations always suffice). -/
def extractBlocksAux : Nat → List Char → List (List Char) × List Char
  | 0, l => ([], l)
  | fuel + 1, l =>
    match findBlockSplit l with
    | none => ([], l)
    | some (pre, post) =>
      let r := extractBlocksAux fuel post
      (pre :: r.1, r.2)

theorem extractBlocksAux_nil (fuel : Nat) : extractBlocksAux fuel [] = ([], []) := by
  cases fuel with
  | zero => rfl
  | succ n => simp [extractBlocksAux, findBlockSplit]

theorem extractBlocksAux_congr :
    ∀ (f₁ : Nat), ∀ (f₂ : Nat) (l : List Char), l.length ≤ f₁ → l.length ≤ f₂ →
      extractBlocksAux f₁ l = extractBlocksAux f₂ l := by
  intro f₁
  induction f₁ with
  | zero =>
    intro f₂ l h₁ _
    have : l = [] := List.length_eq_zero.mp (Nat.le_zero.mp h₁)
    subst this
    rw [extractBlocksAux_nil, extractBlocksAux_nil]
  | succ n ih =>
    intro f₂ l h₁ h₂
    cases f₂ with
    | zero =>
      have : l = [] := List.length_eq_zero.mp (Nat.le_zero.mp h₂)
      subst this
      rw [extractBlocksAux_nil, extractBlocksAux_nil]
    | succ m =>
      simp only [extractBlocksAux]
      cases h : findBlockSplit l with
      | none => rfl
      | some pq =>
        obtain ⟨pre, post⟩ := pq
        have hlen := findBlockSplit_post_length l pre post h
        have hn : post.length ≤ n := by omega
        have hm : post.length ≤ m := by omega
        simp [ih m post hn hm]

/-- The inner `while` loop of `streamChatRequest` (lines 513-517): repeatedly
split off the block before the first blank-line delimiter; return the
extracted blocks in order together with the retained trailing buffer. -/
def extractBlocks (l : List Char) : List (List Char) × List Char :=
  extractBlocksAux l.length l

theorem extractBlocks_of_none (l : List Char) (h : findBlockSplit l = none) :
    extractBlocks l = ([], l) := by
  unfold extractBlocks
  cases hl : l.length with
  | zero => rfl
  | succ n => simp [extractBlocksAux, h]

theorem extractBlocks_of_some (l pre post : List Char)
    (h : findBlockSplit l = some (pre, post)) :
    extractBlocks l = (pre :: (extractBlocks post).1, (extractBlocks post).2) := by
  unfold extractBlocks
  have hlen := findBlockSplit_post_length l pre post h
  cases hl : l.length with
  | zero => omega
  | succ n =>
    have hpost : post.length ≤ n := by omega
    simp [extractBlocksAux, h,
      extractBlocksAux_congr n post.length post hpost le_rfl]

/-- `block.split("\n")` from `parseSseEventBlock` (line 464). -/
def splitOnNl : List Char → List (List Char)
  | [] => [[]]
  | c :: rest =>
    if c = '\n' then [] :: splitOnNl rest
    else
      match splitOnNl rest with
      | [] => [[c]]
      | x :: xs => (c :: x) :: xs

/-- `line.startsWith(tag)` (tag is the first argument). -/
def startsWithTag : List Char → List Char → Bool
  | [], _ => true
  | _ :: _, [] => false
  | t :: ts, c :: cs => t = c && startsWithTag ts cs

/-- The characters of `"event:"`. -/
def eventTag : List Char := "event:".data

/-- The characters of `"data:"`. -/
def dataTag : List Char := "data:".data

/-- The characters of the default event name `"message"`. -/
def msgEventName : List Char := "message".data

/-- One decoded SSE event record, as returned by `parseSseEventBlock`.
The `data` field holds the raw joined data-line text (`rawData`); the JS
function additionally attempts `JSON.parse(rawData)` with the raw string
as fallback, a deterministic pure function of `rawData`, so two decoded
records are equal exactly when the corresponding raw records are
(payload inequality at raw level is witnessed below only on strings on
which `JSON.parse` fails identically). -/
structure SseEvent where
  event : List Char
  data : List Char
deriving DecidableEq, Repr

/-- The `lines.forEach` body of `parseSseEventBlock` (lines 467-473), as a
fold step over the state (current event name, collected data lines). -/
def sseLineStep (st : List Char × List (List Char)) (line : List Char) :
    List Char × List (List Char) :=
  if startsWithTag eventTag line then
    let e := jsTrim (line.drop 6)
    (if e = [] then msgEventName else e, st.2)
  else if startsWithTag dataTag line then
    (st.1, st.2 ++ [jsTrimStart (line.drop 5)])
  else st

/-- `parseSseEventBlock` (lines 461-481): trim the block, return `none` for a
blank block, scan the lines for `event:`/`data:` markers, return `none`
when no data line was found, otherwise the event record with the data
lines joined by newline. -/
def parseSseEventBlock (rawBlock : List Char) : Option SseEvent :=
  let block := jsTrim rawBlock
  if block = [] then none
  else
    let st := (splitOnNl block).foldl sseLineStep (msgEventName, [])
    if st.2 = [] then none
    else some ⟨st.1, List.intercalate ['\n'] st.2⟩

/-- One iteration of the outer read loop of `streamChatRequest`
(lines 509-555) restricted to its decoding effect: normalize the chunk's
CRLF pairs, append it to the retained buffer, extract every complete
block and parse each into an event (blocks parsing to `null` are
dropped). The state is (events emitted so far, retained buffer). -/
def feedChunk (st : List SseEvent × List Char) (chunk : List Char) :
    List SseEvent × List Char :=
  let buf := st.2 ++ normNewlines chunk
  let r := extractBlocks buf
  (st.1 ++ r.1.filterMap parseSseEventBlock, r.2)

/-- The ordered event sequence the decoder of `streamChatRequest` produces
from an incrementally-arriving chunk sequence (any trailing incomplete
block is retained in the buffer and never emitted). -/
def decodeSseChunks (chunks : List (List Char)) : List SseEvent :=
  (chunks.foldl feedChunk ([], [])).1

/-! ### Session registry (`state.sendingSessionIds`) -/

/-- `isSessionSending` (lines 179-183): trim the id; a blank key is never
in flight; otherwise test membership in `state.sendingSessionIds`.
The JS `Set` of strings is modelled as a `List String` queried and
updated through membership. -/
def isSessionSending (ids : List String) (sessionId : String) : Bool :=
  let key := jsTrimString sessionId
  if key = "" then false else ids.contains key

/-- `state.sendingSessionIds.add(key)` (line 819). -/
def addSending (ids : List String) (key : String) : List String :=
  key :: ids

/-- `state.sendingSessionIds.delete(key)` (line 970). -/
def deleteSending (ids : List String) (key : String) : List String :=
  ids.filter (fun k => k ≠ key)

/-- The begin step of `sendMessage` for a session that already has an id
(lines 786-787, 809-811, 819): refuse, leaving the registry unchanged,
when the trimmed id is already in flight or blank; otherwise record the
trimmed id as in flight. Returns (begin succeeded, new registry). -/
def beginSend (ids : List String) (sessionId : String) : Bool × List String :=
  if isSessionSending ids sessionId then (false, ids)
  else if jsTrimString sessionId = "" then (false, ids)
  else (true, addSending ids (jsTrimString sessionId))

/-! ### Stream event loop of `streamChatRequest` and the `sendMessage`
result check -/

/-- The final result payload carried by a `final` frame
(`payload.response`), restricted to the fields `sendMessage` consumes. -/
structure RunResult where
  text : String := ""
  session_id : Option String := none
  summarized : Bool := false
  missing_attachment_ids : Option (List String) := none
deriving DecidableEq, Repr

/-- A decoded stream event as dispatched by the loop of
`streamChatRequest` (lines 521-554), after the event-name comparison. -/
inductive RunEvent where
  | stage (code : String) (detail : String)
  | trace (message : String)
  | debug
  | toolEvent
  | heartbeat
  | error (detail : String)
  | final (response : Option RunResult)
  | done
deriving DecidableEq, Repr

/-- Events the loop merely forwards to handlers before reading on
(`stage`, `trace`, `debug`, `tool_event`, `heartbeat`). -/
def isPassive : RunEvent → Bool
  | .stage _ _ => true
  | .trace _ => true
  | .debug => true
  | .toolEvent => true
  | .heartbeat => true
  | _ => false

/-- Error text thrown for an `error` frame (line 545):
`String(payload?.detail || "stream error")`. -/
def errorEventMsg (detail : String) : String :=
  if detail = "" then "stream error" else detail

/-- Error thrown when the stream ends with no cached final response
(line 559). -/
def streamIncompleteMsg : String := "流式响应中断：未收到最终结果。"

/-- Error thrown by `sendMessage` when `streamChatRequest` resolved to a
non-object (line 903). -/
def noFinalResultMsg : String := "流式响应异常：未收到最终结果。"

/-- The dispatch loop of `streamChatRequest` (lines 521-559) over an
already-decoded event list, tracking the cached `finalResponse`:
an `error` frame throws; a `final` frame replaces the cache with
`payload?.response || null`; `done` resolves with whatever is cached
(possibly `null`); when the stream ends, a cached final resolves the
call and otherwise the stream-incomplete error is thrown. -/
def processEvents : List RunEvent → Option RunResult → Except String (Option RunResult)
  | [], fin =>
    match fin with
    | some r => .ok (some r)
    | none => .error streamIncompleteMsg
  | e :: rest, fin =>
    match e with
    | .error d => .error (errorEventMsg d)
    | .final resp => processEvents rest resp
    | .done => .ok fin
    | _ => processEvents rest fin

/-- `sendMessage`'s view of one streamed run (lines 852, 902-904): the
resolved value of `streamChatRequest`, rejected with the
no-final-result error when it is not an object. -/
def runOutcome (events : List RunEvent) : Except String RunResult :=
  match processEvents events none with
  | .error e => .error e
  | .ok none => .error noFinalResultMsg
  | .ok (some r) => .ok r

/-- Outcome of one `sendMessage` call on a session that already has an id:
whether the request was dispatched, the run result observed by the
`try`/`catch` (`none` when the begin guard refused), and the final
contents of `state.sendingSessionIds` — the `finally` block (lines
965-972) deletes the key on every dispatched path. -/
structure SendOutcome where
  dispatched : Bool
  result : Option (Except String RunResult)
  finalIds : List String
deriving Repr

/-- The lock lifecycle of `sendMessage` (lines 786-787, 809-811, 819,
852, 965-972) for a session that already has an id, with the decoded
event stream supplied as data. -/
def sendMessageModel (ids : List String) (sessionId : String)
    (events : List RunEvent) : SendOutcome :=
  let b := beginSend ids sessionId
  if b.1 then
    ⟨true, some (runOutcome events), deleteSending b.2 (jsTrimString sessionId)⟩
  else ⟨false, none, ids⟩

/-! ### Run-stage mapping (`applyBackendStage`) -/

/-- The step ids of `RUN_FLOW_STEPS` (lines 40-46), in display order. -/
inductive StepId where
  | prepare
  | send
  | wait
  | parse
  | done
deriving DecidableEq, Repr

/-- Position of a step in `RUN_FLOW_STEPS`. -/
def stepIndex : StepId → Nat
  | .prepare => 0
  | .send => 1
  | .wait => 2
  | .parse => 3
  | .done => 4

/-- A `stage` frame payload `{code, detail}`. -/
structure StagePayload where
  code : String := ""
  detail : String := ""
deriving DecidableEq, Repr

/-- The step `applyBackendStage` selects for a (trimmed) stage code, or
`none` for a blank or unrecognised code (lines 562-578). -/
def stageStepOf (code : String) : Option StepId :=
  if code = "" then none
  else if code = "backend_start" ∨ code = "session_ready" ∨ code = "attachments_ready" then
    some .prepare
  else if code = "agent_run_start" then some .wait
  else if code = "agent_run_done" ∨ code = "session_saved" ∨ code = "stats_saved"
      ∨ code = "ready" then
    some .parse
  else none

/-- `applyBackendStage` (lines 562-578) as a transition on the currently
displayed step: a blank or unrecognised code leaves the display
untouched, a recognised code switches to its mapped step. -/
def applyBackendStage (cur : Option StepId) (payload : StagePayload) : Option StepId :=
  match stageStepOf (jsTrimString payload.code) with
  | some s => some s
  | none => cur

/-- Displayed step after each successive stage payload. -/
def stageTrajectory (cur : Option StepId) : List StagePayload → List (Option StepId)
  | [] => []
  | p :: ps =>
    let nxt := applyBackendStage cur p
    nxt :: stageTrajectory nxt ps

/-- Forward order on displayed steps (an unset display precedes
everything; the display is never cleared once set). -/
def stepLe (a b : Option StepId) : Bool :=
  match a, b with
  | none, _ => true
  | some _, none => false
  | some x, some y => stepIndex x ≤ stepIndex y

/-- The steps a payload sequence maps through `applyBackendStage`,
blank/unrecognised codes skipped. -/
def mappedSteps (ps : List StagePayload) : List StepId :=
  ps.filterMap (fun p => stageStepOf (jsTrimString p.code))

/-! ### Token statistics (`renderTokenStats`, `refreshTokenStatsFromServer`,
the clear-stats click handler) -/

/-- A usage-aggregate object as received from the backend; absent fields
model a missing JS property (read back with `|| 0` defaults). -/
structure TokenAgg where
  requests : Option Nat := none
  input_tokens : Option Nat := none
  output_tokens : Option Nat := none
  total_tokens : Option Nat := none
deriving DecidableEq, Repr

/-- The empty object `{}`. -/
def emptyAgg : TokenAgg := {}

/-- The numbers `renderTokenStats` (lines 667-685) actually displays for
one scope, after its `|| 0` defaulting. -/
structure AggView where
  requests : Nat
  input_tokens : Nat
  output_tokens : Nat
  total_tokens : Nat
deriving DecidableEq, Repr

/-- `x.field || 0` for each displayed field of a scope. -/
def viewAgg (a : TokenAgg) : AggView :=
  ⟨a.requests.getD 0, a.input_tokens.getD 0, a.output_tokens.getD 0,
    a.total_tokens.getD 0⟩

/-- The three scopes rendered into `tokenStatsView` by `renderTokenStats`. -/
structure StatsDisplay where
  lastView : AggView
  sessionView : AggView
  globalView : AggView
deriving DecidableEq, Repr

/-- `renderTokenStats(payload)` (lines 667-685) restricted to the numeric
scopes it displays. -/
def renderTokenStats (last session global : TokenAgg) : StatsDisplay :=
  ⟨viewAgg last, viewAgg session, viewAgg global⟩

/-- The `/api/stats` response body: global totals plus per-session totals. -/
structure ServerStats where
  totals : TokenAgg
  sessions : List (String × TokenAgg)
deriving DecidableEq, Repr

/-- Modelled from the spec: the backend `clear-stats` collaborator
(`POST /api/stats/clear`, not part of `src/`) — §3(d)/§4.6: the explicit
global-clear "resets only the global scope", so it zeroes the stored
global totals and leaves per-session totals untouched. -/
def clearStats (s : ServerStats) : ServerStats :=
  ⟨emptyAgg, s.sessions⟩

/-- `data.sessions?.[sid] || {}`. -/
def lookupSessionTotals (s : ServerStats) (sid : String) : TokenAgg :=
  (s.sessions.lookup sid).getD emptyAgg

/-- `refreshTokenStatsFromServer` (lines 687-700): fetch `/api/stats` and
re-render with an empty last-run scope, the server-reported totals of
the current session (empty when no session is active), and the
server-reported global totals. -/
def refreshTokenStatsFromServer (s : ServerStats) (sessionId : Option String) :
    StatsDisplay :=
  let sessionTotals :=
    match sessionId with
    | some sid => lookupSessionTotals s sid
    | none => emptyAgg
  renderTokenStats emptyAgg sessionTotals s.totals

/-- The `clearStatsBtn` click handler (lines 1026-1037): call the backend
clear, then refresh the cumulative display from the server. Returns the
new server state and the new display. -/
def clearStatsHandler (s : ServerStats) (sessionId : Option String) :
    ServerStats × StatsDisplay :=
  let s2 := clearStats s
  (s2, refreshTokenStatsFromServer s2 sessionId)

/-! ### Attachment reconciliation (`sendMessage`, lines 923-932) -/

/-- A pending attachment reference held in `state.attachments`. -/
structure Attachment where
  id : String
  name : String := ""
  size : Nat := 0
deriving DecidableEq, Repr

/-- The reconciliation step of `sendMessage` (lines 923-932) applied to
the final result's `missing_attachment_ids`: when the field is an array
with at least one element, record one warning bubble and drop exactly
the pending attachments whose id is reported missing; otherwise leave
the pending list alone and record nothing. Returns (new pending list,
number of warnings recorded). -/
def reconcileAttachments (attachments : List Attachment)
    (missing : Option (List String)) : List Attachment × Nat :=
  match missing with
  | some ms =>
    if ms.isEmpty then (attachments, 0)
    else (attachments.filter (fun x => !(ms.contains x.id)), 1)
  | none => (attachments, 0)

/-! ### Post-final effects of `sendMessage` (lines 906-946) -/

/-- The externally visible actions `sendMessage` takes after
`streamChatRequest` resolves with a final result. -/
inductive RunEffect where
  | uiMessageRender
  | sessionHistoryRefresh
  | tokenStatsRender
  | stageDone
deriving DecidableEq, Repr

/-- The ordered effects of the success path of `sendMessage`
(lines 906-946) as a function of whether the originating session is
still the foreground session when they fire: the chat-bubble /
trace / flow / attachment updates (lines 907-937) and the final
token-stats render plus done-stage display (lines 939-946) are guarded
by `isForegroundSession()`, while `refreshSessionHistory()` (line 938)
is not. -/
def successPathEffects (foreground : Bool) : List RunEffect :=
  (if foreground then [RunEffect.uiMessageRender] else []) ++
    [RunEffect.sessionHistoryRefresh] ++
    (if foreground then [RunEffect.tokenStatsRender, RunEffect.stageDone] else [])

/-! ### The frame grammar of the event stream -/

/-- Modelled from the spec (§4.2): a line terminator of the wire format;
the claim set explicitly includes CRLF-framed input ("a boundary
falling inside a CRLF pair"). -/
inductive LineEnd where
  | lf
  | crlf
deriving DecidableEq, Repr

/-- The characters of a line terminator. -/
def LineEnd.render : LineEnd → List Char
  | .lf => ['\n']
  | .crlf => ['\r', '\n']

/-- Text that may appear after `event: ` or `data: ` on one line. -/
def cleanText (l : List Char) : Bool :=
  l.all (fun c => c ≠ '\n' ∧ c ≠ '\r')

/-- Modelled from the spec (§4.2): one block of the frame grammar —
zero or one `event:` line, then one or more `data:` lines, then the
blank line that terminates the block. -/
structure BlockDesc where
  eventLine : Option (List Char × LineEnd)
  dataLines : List (List Char × LineEnd)
  blankEnd : LineEnd
deriving DecidableEq, Repr

/-- Well-formedness of a block description: at least one data line, and
no stray line breaks inside the names or payload texts. -/
def BlockDesc.wf (b : BlockDesc) : Bool :=
  !b.dataLines.isEmpty &&
    (match b.eventLine with
     | some (n, _) => cleanText n && !n.isEmpty
     | none => true) &&
    b.dataLines.all (fun d => cleanText d.1)

/-- The characters of one block. -/
def BlockDesc.render (b : BlockDesc) : List Char :=
  (match b.eventLine with
   | some (n, e) => "event: ".data ++ n ++ e.render
   | none => []) ++
    (b.dataLines.map (fun d => "data: ".data ++ d.1 ++ d.2.render)).flatten ++
    b.blankEnd.render

/-- The characters of a whole stream of blocks. -/
def renderStream (bs : List BlockDesc) : List Char :=
  (bs.map BlockDesc.render).flatten

/-- Modelled from the spec (§4.2): a byte sequence conforms to the frame
grammar when it renders some non-empty list of well-formed blocks. -/
def conformsToFrameGrammar (s : List Char) : Prop :=
  ∃ bs : List BlockDesc, bs ≠ [] ∧ bs.all BlockDesc.wf ∧ renderStream bs = s

/-! ### Chunk-boundary independence of the decoder -/

theorem normNewlines_of_no_cr (l : List Char) (h : ∀ c ∈ l, c ≠ '\r') :
    normNewlines l = l := by
  induction l with
  | nil => rfl
  | cons c tail ih =>
    cases tail with
    | nil => rfl
    | cons d rest =>
      have hc : c ≠ '\r' := h c (by simp)
      have htail : ∀ x ∈ d :: rest, x ≠ '\r' := fun x hx => h x (by simp [hx])
      simp only [normNewlines]
      rw [if_neg (by tauto)]
      rw [ih htail]

theorem extractBlocks_rest_no_delim (l : List Char) :
    findBlockSplit (extractBlocks l).2 = none := by
  have H : ∀ n, ∀ l : List Char, l.length ≤ n →
      findBlockSplit (extractBlocks l).2 = none := by
    intro n
    induction n with
    | zero =>
      intro l hl
      have : l = [] := List.length_eq_zero.mp (Nat.le_zero.mp hl)
      subst this
      rw [extractBlocks_of_none [] (by simp [findBlockSplit])]
      rfl
    | succ n ih =>
      intro l hl
      cases h : findBlockSplit l with
      | none => rw [extractBlocks_of_none l h]; exact h
      | some pq =>
        obtain ⟨pre, post⟩ := pq
        rw [extractBlocks_of_some l pre post h]
        have hlen := findBlockSplit_post_length l pre post h
        exact ih post (by omega)
  exact H l.length l le_rfl

theorem extractBlocks_append (a b : List Char) :
    extractBlocks (a ++ b) =
      ((extractBlocks a).1 ++ (extractBlocks ((extractBlocks a).2 ++ b)).1,
        (extractBlocks ((extractBlocks a).2 ++ b)).2) := by
  have H : ∀ n, ∀ a b : List Char, a.length ≤ n →
      extractBlocks (a ++ b) =
        ((extractBlocks a).1 ++ (extractBlocks ((extractBlocks a).2 ++ b)).1,
          (extractBlocks ((extractBlocks a).2 ++ b)).2) := by
    intro n
    induction n with
    | zero =>
      intro a b ha
      have : a = [] := List.length_eq_zero.mp (Nat.le_zero.mp ha)
      subst this
      rw [extractBlocks_of_none [] (by simp [findBlockSplit])]
      simp
    | succ n ih =>
      intro a b ha
      cases h : findBlockSplit a with
      | none =>
        rw [extractBlocks_of_none a h]
        simp
      | some pq =>
        obtain ⟨pre, post⟩ := pq
        have hsplit := findBlockSplit_append a b pre post h
        rw [extractBlocks_of_some a pre post h,
          extractBlocks_of_some (a ++ b) pre (post ++ b) hsplit]
        have hlen := findBlockSplit_post_length a pre post h
        have := ih post b (by omega)
        rw [this]
        simp
  exact H a.length a b le_rfl

theorem foldl_feedChunk (chunks : List (List Char)) :
    ∀ (evs : List SseEvent) (buf : List Char),
      findBlockSplit buf = none →
      (∀ c ∈ chunks, normNewlines c = c) →
      chunks.foldl feedChunk (evs, buf) =
        (evs ++ (extractBlocks (buf ++ chunks.flatten)).1.filterMap parseSseEventBlock,
          (extractBlocks (buf ++ chunks.flatten)).2) := by
  induction chunks with
  | nil =>
    intro evs buf hbuf _
    rw [List.foldl_nil, List.flatten_nil, List.append_nil,
      extractBlocks_of_none buf hbuf]
    simp
  | cons c cs ih =>
    intro evs buf hbuf hnorm
    rw [List.foldl_cons]
    have hc : normNewlines c = c := hnorm c (by simp)
    have hcs : ∀ x ∈ cs, normNewlines x = x := fun x hx => hnorm x (by simp [hx])
    have hstep : feedChunk (evs, buf) c =
        (evs ++ (extractBlocks (buf ++ c)).1.filterMap parseSseEventBlock,
          (extractBlocks (buf ++ c)).2) := by
      simp [feedChunk, hc]
    rw [hstep, ih _ _ (extractBlocks_rest_no_delim (buf ++ c)) hcs]
    have happ := extractBlocks_append (buf ++ c) cs.flatten
    rw [List.flatten_cons, show buf ++ (c ++ cs.flatten) = (buf ++ c) ++ cs.flatten by
      simp, happ]
    simp [List.filterMap_append]

theorem decodeSseChunks_eq_whole (chunks : List (List Char))
    (h : ∀ c ∈ chunks, normNewlines c = c) :
    decodeSseChunks chunks =
      (extractBlocks chunks.flatten).1.filterMap parseSseEventBlock := by
  unfold decodeSseChunks
  rw [foldl_feedChunk chunks [] [] (by simp [findBlockSplit]) h]
  simp

/-- C1, amended: chunk-boundary independence of the event-frame decoder
for carriage-return-free input. For every byte sequence conforming to
the frame grammar that contains no `\r` (in particular, every LF-framed
conforming stream), decoding it in a single chunk or split into chunks
at arbitrary byte boundaries yields the identical ordered sequence of
`{name, payload}` events. (As stated over CRLF-framed input the claim
fails: see the counterexample.) -/
theorem sse_decode_chunk_invariant (s : List Char) (chunks : List (List Char))
    (hconf : conformsToFrameGrammar s)
    (hcr : ∀ c ∈ s, c ≠ '\r')
    (hjoin : chunks.flatten = s) :
    decodeSseChunks chunks = decodeSseChunks [s] := by
  clear hconf
  have hchunks : ∀ c ∈ chunks, normNewlines c = c := by
    intro c hc
    apply normNewlines_of_no_cr
    intro x hx
    exact hcr x (hjoin ▸ List.mem_flatten.mpr ⟨c, hc, hx⟩)
  have hs : ∀ c ∈ [s], normNewlines c = c := by
    intro c hc
    simp at hc
    rw [hc]
    exact normNewlines_of_no_cr s hcr
  rw [decodeSseChunks_eq_whole chunks hchunks, decodeSseChunks_eq_whole [s] hs,
    List.flatten_cons, List.flatten_nil, List.append_nil, hjoin]

/-- C1 witness: a concrete LF-framed conforming stream decodes to the same
event sequence whole or split in the middle of the `event:` line. -/
theorem sse_decode_chunk_invariant_witness :
    conformsToFrameGrammar "event: ping\ndata: 1\n\n".data ∧
      decodeSseChunks ["event: pi".data, "ng\ndata: 1\n\n".data] =
        decodeSseChunks ["event: ping\ndata: 1\n\n".data] := by
  have hconf : conformsToFrameGrammar "event: ping\ndata: 1\n\n".data :=
    ⟨[⟨some ("ping".data, .lf), [("1".data, .lf)], .lf⟩], by decide, by decide, by decide⟩
  exact ⟨hconf,
    sse_decode_chunk_invariant "event: ping\ndata: 1\n\n".data
      ["event: pi".data, "ng\ndata: 1\n\n".data] hconf (by decide) (by decide)⟩

/-- C1 counterexample: the per-chunk CRLF normalization
(`decoder.decode(...).replace(/\r\n/g, "\n")`, line 512) misses a CRLF
pair split across a chunk boundary, so the surviving `\r` ends up inside
the joined data payload: the conforming CRLF-framed stream
`"data: a\r\ndata: b\r\n\r\n"` decodes to the payload `"a\nb"` whole but
to `"a\r\nb"` when split between the `\r` and the `\n` of the first
line terminator. -/
theorem sse_decode_chunk_dependent_counterexample :
    conformsToFrameGrammar "data: a\r\ndata: b\r\n\r\n".data ∧
      "data: a\r".data ++ "\ndata: b\r\n\r\n".data = "data: a\r\ndata: b\r\n\r\n".data ∧
      decodeSseChunks ["data: a\r".data, "\ndata: b\r\n\r\n".data] ≠
        decodeSseChunks ["data: a\r\ndata: b\r\n\r\n".data] :=
  ⟨⟨[⟨none, [("a".data, .crlf), ("b".data, .crlf)], .crlf⟩], by decide, by decide,
      by decide⟩,
    by decide, by decide⟩

/-! ### Resolution policy of the event loop -/

theorem processEvents_all_passive (l : List RunEvent) :
    ∀ fin, l.all isPassive = true →
      processEvents l fin =
        match fin with
        | some r => .ok (some r)
        | none => .error streamIncompleteMsg := by
  induction l with
  | nil => intro fin _; cases fin <;> rfl
  | cons e rest ih =>
    intro fin h
    rw [List.all_cons, Bool.and_eq_true] at h
    obtain ⟨he, hrest⟩ := h
    cases e with
    | stage c d => exact ih fin hrest
    | trace m => exact ih fin hrest
    | debug => exact ih fin hrest
    | toolEvent => exact ih fin hrest
    | heartbeat => exact ih fin hrest
    | error d => simp [isPassive] at he
    | final r => simp [isPassive] at he
    | done => simp [isPassive] at he

theorem processEvents_append_passive (l : List RunEvent) :
    ∀ (rest : List RunEvent) (fin), l.all isPassive = true →
      processEvents (l ++ rest) fin = processEvents rest fin := by
  induction l with
  | nil => intro rest fin _; rfl
  | cons e tail ih =>
    intro rest fin h
    rw [List.all_cons, Bool.and_eq_true] at h
    obtain ⟨he, htail⟩ := h
    cases e with
    | stage c d => exact ih rest fin htail
    | trace m => exact ih rest fin htail
    | debug => exact ih rest fin htail
    | toolEvent => exact ih rest fin htail
    | heartbeat => exact ih rest fin htail
    | error d => simp [isPassive] at he
    | final r => simp [isPassive] at he
    | done => simp [isPassive] at he

/-- C3: lenient completion. A decoded stream that carries a `final` event
(with its response payload) and then ends without a `done` event — all
other events being forwarded frames — still resolves the run
successfully with the cached final payload. -/
theorem lenient_completion (l₁ l₂ : List RunEvent) (r : RunResult)
    (h₁ : l₁.all isPassive = true) (h₂ : l₂.all isPassive = true) :
    runOutcome (l₁ ++ RunEvent.final (some r) :: l₂) = .ok r := by
  unfold runOutcome
  rw [processEvents_append_passive l₁ _ none h₁,
    show processEvents (RunEvent.final (some r) :: l₂) none
        = processEvents l₂ (some r) from rfl,
    processEvents_all_passive l₂ (some r) h₂]

/-- C3 witness: a stream of one stage frame, the final frame, one
heartbeat, and no done frame resolves to the final payload. -/
theorem lenient_completion_witness :
    runOutcome
        [RunEvent.stage "backend_start" "", RunEvent.final (some {}),
          RunEvent.heartbeat] = .ok {} :=
  lenient_completion [RunEvent.stage "backend_start" ""] [RunEvent.heartbeat] {}
    (by decide) (by decide)

/-- C9: a `done` event observed before any `final` event makes
`streamChatRequest` resolve with the null cache, and `sendMessage`
then fails the run with the no-final-result error instead of treating
it as success. -/
theorem done_without_final_fails (l₁ rest : List RunEvent)
    (h₁ : l₁.all isPassive = true) :
    processEvents (l₁ ++ RunEvent.done :: rest) none = .ok none ∧
      runOutcome (l₁ ++ RunEvent.done :: rest) = .error noFinalResultMsg := by
  have hp : processEvents (l₁ ++ RunEvent.done :: rest) none = .ok none := by
    rw [processEvents_append_passive l₁ _ none h₁]
    rfl
  exact ⟨hp, by unfold runOutcome; rw [hp]⟩

/-- C9 witness: `done` right after a stage frame, with a stray trailing
final frame that the early return never reaches. -/
theorem done_without_final_fails_witness :
    processEvents
          [RunEvent.stage "backend_start" "", RunEvent.done,
            RunEvent.final (some {})] none = .ok none ∧
      runOutcome
          [RunEvent.stage "backend_start" "", RunEvent.done,
            RunEvent.final (some {})] = .error noFinalResultMsg :=
  done_without_final_fails [RunEvent.stage "backend_start" ""]
    [RunEvent.final (some {})] (by decide)

/-! ### Session registry -/

theorem isSessionSending_deleteSending (ids : List String) (sid : String) :
    isSessionSending (deleteSending ids (jsTrimString sid)) sid = false := by
  unfold isSessionSending deleteSending
  by_cases h : jsTrimString sid = ""
  · simp [h]
  · simp only [h, if_false]
    simp [List.contains, List.mem_filter]

/-- C4: stream-incomplete failure with lock release. When a dispatched
run's decoded stream closes with neither a `final` nor a `done` event
(only forwarded frames such as `stage`), `sendMessage` observes the
stream-incomplete error, and the `finally` block removes the session
key from `sendingSessionIds`, so a subsequent begin on the same id
succeeds. -/
theorem stream_incomplete_releases_lock (ids : List String) (sid : String)
    (events : List RunEvent)
    (hkey : jsTrimString sid ≠ "")
    (hfree : isSessionSending ids sid = false)
    (hev : events.all isPassive = true) :
    (sendMessageModel ids sid events).dispatched = true ∧
      (sendMessageModel ids sid events).result
          = some (.error streamIncompleteMsg) ∧
      isSessionSending (sendMessageModel ids sid events).finalIds sid = false ∧
      (beginSend (sendMessageModel ids sid events).finalIds sid).1 = true := by
  have hb : beginSend ids sid = (true, addSending ids (jsTrimString sid)) := by
    unfold beginSend
    rw [if_neg (by simp [hfree]), if_neg hkey]
  have hrun : runOutcome events = .error streamIncompleteMsg := by
    unfold runOutcome
    rw [processEvents_all_passive events none hev]
  have hmodel : sendMessageModel ids sid events =
      ⟨true, some (runOutcome events),
        deleteSending (addSending ids (jsTrimString sid)) (jsTrimString sid)⟩ := by
    unfold sendMessageModel
    rw [hb]
    simp
  rw [hmodel, hrun]
  refine ⟨rfl, rfl, isSessionSending_deleteSending _ sid, ?_⟩
  unfold beginSend
  rw [if_neg (by simp [isSessionSending_deleteSending]), if_neg hkey]

/-- C4 witness: a fresh session id, a stream of one stage frame. -/
theorem stream_incomplete_releases_lock_witness :
    (sendMessageModel [] "A" [RunEvent.stage "agent_run_start" ""]).dispatched
        = true ∧
      (sendMessageModel [] "A" [RunEvent.stage "agent_run_start" ""]).result
          = some (.error streamIncompleteMsg) ∧
      isSessionSending
          (sendMessageModel [] "A" [RunEvent.stage "agent_run_start" ""]).finalIds
          "A" = false ∧
      (beginSend
          (sendMessageModel [] "A" [RunEvent.stage "agent_run_start" ""]).finalIds
          "A").1 = true :=
  stream_incomplete_releases_lock [] "A" [RunEvent.stage "agent_run_start" ""]
    (by decide) (by decide) (by decide)

/-- C2: per-session mutual exclusion. While an id is in flight a second
begin on the same id fails and leaves the registry unchanged; a begin
on a different free id succeeds (independent mutex keys); deleting the
key (the matching end) clears the in-flight flag. -/
theorem session_mutual_exclusion (ids : List String) (A B : String)
    (hA : jsTrimString A ≠ "") (hB : jsTrimString B ≠ "")
    (hAB : jsTrimString A ≠ jsTrimString B)
    (hAfree : isSessionSending ids A = false)
    (hBfree : isSessionSending ids B = false) :
    (beginSend ids A).1 = true ∧
      beginSend (beginSend ids A).2 A = (false, (beginSend ids A).2) ∧
      (beginSend (beginSend ids A).2 B).1 = true ∧
      isSessionSending
          (deleteSending (beginSend ids A).2 (jsTrimString A)) A = false := by
  have hb : beginSend ids A = (true, addSending ids (jsTrimString A)) := by
    unfold beginSend
    rw [if_neg (by simp [hAfree]), if_neg hA]
  have hsendA : isSessionSending (addSending ids (jsTrimString A)) A = true := by
    unfold isSessionSending addSending
    rw [if_neg hA]
    simp [List.contains]
  have hsendB : isSessionSending (addSending ids (jsTrimString A)) B = false := by
    unfold isSessionSending addSending
    rw [if_neg hB]
    have hBnotin : jsTrimString B ∉ ids := by
      unfold isSessionSending at hBfree
      rw [if_neg hB] at hBfree
      simpa [List.contains] using hBfree
    simp [List.contains, Ne.symm hAB, hBnotin]
  refine ⟨by rw [hb], ?_, ?_, ?_⟩
  · rw [hb]
    unfold beginSend
    rw [if_pos hsendA]
  · rw [hb]
    unfold beginSend
    rw [if_neg (by simp [hsendB]), if_neg hB]
  · rw [hb]
    exact isSessionSending_deleteSending _ A

/-- C2 witness: scenario B of the spec with ids `"A"` and `"B"` on an
empty registry. -/
theorem session_mutual_exclusion_witness :
    (beginSend [] "A").1 = true ∧
      beginSend (beginSend [] "A").2 "A" = (false, (beginSend [] "A").2) ∧
      (beginSend (beginSend [] "A").2 "B").1 = true ∧
      isSessionSending
          (deleteSending (beginSend [] "A").2 (jsTrimString "A")) "A" = false :=
  session_mutual_exclusion [] "A" "B" (by decide) (by decide) (by decide)
    (by decide) (by decide)

/-- C10: a blank (empty or all-whitespace) session id is never reported
in flight, whatever the registry contains, so the guard in
`sendMessage` never blocks a send dispatched before a session id
exists; the mutual-exclusion invariant concerns only non-blank keys. -/
theorem blank_session_never_sending (ids : List String) (sid : String)
    (h : jsTrimString sid = "") : isSessionSending ids sid = false := by
  unfold isSessionSending
  rw [if_pos h]

/-- C10 witness: an all-whitespace id on a registry that even contains the
empty string. -/
theorem blank_session_never_sending_witness :
    isSessionSending ["x", ""] "  " = false :=
  blank_session_never_sending ["x", ""] "  " (by decide)

/-! ### Stage progression -/

theorem stepLe_refl (a : Option StepId) : stepLe a a = true := by
  cases a with
  | none => rfl
  | some x => simp [stepLe]

theorem stageTrajectory_chain (ps : List StagePayload) :
    ∀ cur : Option StepId,
      List.Chain' (fun a b => stepIndex a ≤ stepIndex b) (mappedSteps ps) →
      (∀ m ∈ (mappedSteps ps).head?, stepLe cur (some m) = true) →
      List.Chain' (fun a b => stepLe a b = true) (cur :: stageTrajectory cur ps) := by
  induction ps with
  | nil =>
    intro cur _ _
    simp [stageTrajectory]
  | cons p rest ih =>
    intro cur hchain hcur
    cases hm : stageStepOf (jsTrimString p.code) with
    | none =>
      have hmap : mappedSteps (p :: rest) = mappedSteps rest := by
        simp [mappedSteps, List.filterMap_cons, hm]
      have happly : applyBackendStage cur p = cur := by
        simp [applyBackendStage, hm]
      rw [hmap] at hchain hcur
      have hstep : stageTrajectory cur (p :: rest)
          = cur :: stageTrajectory cur rest := by
        simp [stageTrajectory, happly]
      rw [hstep, List.chain'_cons']
      refine ⟨?_, ih cur hchain hcur⟩
      intro b hb
      simp at hb
      rw [← hb]
      exact stepLe_refl cur
    | some m =>
      have hmap : mappedSteps (p :: rest) = m :: mappedSteps rest := by
        simp [mappedSteps, List.filterMap_cons, hm]
      have happly : applyBackendStage cur p = some m := by
        simp [applyBackendStage, hm]
      rw [hmap] at hchain hcur
      rw [List.chain'_cons'] at hchain
      obtain ⟨hhead, htail⟩ := hchain
      have hnext : ∀ m' ∈ (mappedSteps rest).head?, stepLe (some m) (some m') = true := by
        intro m' hm'
        have := hhead m' hm'
        simpa [stepLe] using this
      have hstep : stageTrajectory cur (p :: rest)
          = some m :: stageTrajectory (some m) rest := by
        simp [stageTrajectory, happly]
      rw [hstep, List.chain'_cons']
      refine ⟨?_, ih (some m) htail hnext⟩
      intro b hb
      simp at hb
      rw [← hb]
      exact hcur m (by simp)

/-- C5, amended: stage monotonicity holds only for canonically ordered
stage-code sequences. Starting from the initial unset display, if the
stage codes that `applyBackendStage` recognises arrive so that their
mapped steps are in non-decreasing `RUN_FLOW_STEPS` order (the order
the backend's pipeline emits them), the observed step never moves
backward; blank or unrecognised codes never change it. For arbitrary
code orders the code has no guard and the stage can regress — see the
counterexample. -/
theorem stage_monotone_of_ordered_codes (ps : List StagePayload)
    (h : List.Chain' (fun a b => stepIndex a ≤ stepIndex b) (mappedSteps ps)) :
    List.Chain' (fun a b => stepLe a b = true)
      (none :: stageTrajectory none ps) :=
  stageTrajectory_chain ps none h (fun _ _ => rfl)

/-- C5 witness: the canonical code order `backend_start`,
`agent_run_start`, `session_saved` yields a forward-only trajectory. -/
theorem stage_monotone_of_ordered_codes_witness :
    List.Chain' (fun a b => stepLe a b = true)
      (none ::
        stageTrajectory none
          [⟨"backend_start", ""⟩, ⟨"agent_run_start", ""⟩, ⟨"session_saved", ""⟩]) :=
  stage_monotone_of_ordered_codes
    [⟨"backend_start", ""⟩, ⟨"agent_run_start", ""⟩, ⟨"session_saved", ""⟩]
    (by
      rw [show mappedSteps
            [⟨"backend_start", ""⟩, ⟨"agent_run_start", ""⟩, ⟨"session_saved", ""⟩]
          = [StepId.prepare, StepId.wait, StepId.parse] from by decide]
      simp [List.chain'_cons, stepIndex])

/-- C5 counterexample: `applyBackendStage` applies whatever code arrives,
so a preparing-class code after `agent_run_start` moves the displayed
step from `wait` (index 2) back to `prepare` (index 0) — a move to an
earlier non-error stage. (The same regression occurs on every normal
run: `sendMessage` sets the `send` step at dispatch and the first
`backend_start` stage frame maps back to `prepare`.) -/
theorem stage_regression_counterexample :
    applyBackendStage none ⟨"agent_run_start", ""⟩ = some StepId.wait ∧
      applyBackendStage (some StepId.wait) ⟨"backend_start", ""⟩
          = some StepId.prepare ∧
      stepIndex StepId.prepare < stepIndex StepId.wait := by
  decide

/-! ### Token-statistics isolation of the global clear -/

/-- C6, amended: the clear-stats handler zeroes the global scope and
leaves the server-side session-cumulative scope (and hence the
session scope it displays) unchanged, but the cumulative refresh it
performs re-renders the last-run scope as the empty aggregate — the
last-run display is not left unchanged. -/
theorem clear_stats_global_isolation (s : ServerStats) (sid : String) :
    (clearStatsHandler s (some sid)).1.sessions = s.sessions ∧
      (clearStatsHandler s (some sid)).2.globalView = viewAgg emptyAgg ∧
      (clearStatsHandler s (some sid)).2.sessionView =
        (refreshTokenStatsFromServer s (some sid)).sessionView ∧
      (clearStatsHandler s (some sid)).2.lastView = viewAgg emptyAgg := by
  refine ⟨rfl, rfl, ?_, rfl⟩
  simp [clearStatsHandler, clearStats, refreshTokenStatsFromServer,
    renderTokenStats, lookupSessionTotals]

/-- C6 counterexample: after a run rendered a non-zero last-run scope,
clearing the global aggregates replaces the last-run display by the
empty aggregate, so the last-run scope is not left unchanged by the
clear operation (its global scope is zeroed and the session scope is
untouched, as claimed). -/
theorem clear_stats_last_run_counterexample :
    (clearStatsHandler
          ⟨⟨some 3, some 10, some 20, some 30⟩,
            [("s1", ⟨some 2, some 5, some 6, some 11⟩)]⟩
          (some "s1")).2.globalView = viewAgg emptyAgg ∧
      (clearStatsHandler
            ⟨⟨some 3, some 10, some 20, some 30⟩,
              [("s1", ⟨some 2, some 5, some 6, some 11⟩)]⟩
            (some "s1")).2.sessionView =
        (renderTokenStats ⟨some 1, some 2, some 3, some 5⟩
            ⟨some 2, some 5, some 6, some 11⟩
            ⟨some 3, some 10, some 20, some 30⟩).sessionView ∧
      (clearStatsHandler
            ⟨⟨some 3, some 10, some 20, some 30⟩,
              [("s1", ⟨some 2, some 5, some 6, some 11⟩)]⟩
            (some "s1")).2.lastView ≠
        (renderTokenStats ⟨some 1, some 2, some 3, some 5⟩
            ⟨some 2, some 5, some 6, some 11⟩
            ⟨some 3, some 10, some 20, some 30⟩).lastView := by
  decide

/-! ### Attachment reconciliation -/

/-- C7: attachment reconciliation. A final result reporting a non-empty
`missing_attachment_ids` list removes exactly the pending attachments
whose id is reported (the survivors keep their relative order: the new
list is a sublist of the old) and records exactly one warning; an
empty or absent list leaves the pending list unchanged and records
none. -/
theorem attachment_reconciliation (atts : List Attachment) (ms : List String)
    (hms : ms ≠ []) :
    (reconcileAttachments atts (some ms)).2 = 1 ∧
      List.Sublist (reconcileAttachments atts (some ms)).1 atts ∧
      (∀ a ∈ (reconcileAttachments atts (some ms)).1, a.id ∉ ms) ∧
      (∀ a ∈ atts, a.id ∉ ms → a ∈ (reconcileAttachments atts (some ms)).1) ∧
      (∀ a ∈ atts, a.id ∈ ms → a ∉ (reconcileAttachments atts (some ms)).1) ∧
      reconcileAttachments atts (some []) = (atts, 0) ∧
      reconcileAttachments atts none = (atts, 0) := by
  have hempty : ms.isEmpty = false := by
    cases ms with
    | nil => exact absurd rfl hms
    | cons x xs => rfl
  have hr : reconcileAttachments atts (some ms)
      = (atts.filter (fun x => !(ms.contains x.id)), 1) := by
    simp [reconcileAttachments, hempty]
  refine ⟨by rw [hr], ?_, ?_, ?_, ?_, by simp [reconcileAttachments], rfl⟩
  · rw [hr]
    exact List.filter_sublist atts
  · intro a ha
    rw [hr] at ha
    have := List.of_mem_filter ha
    simpa [List.contains] using this
  · intro a ha hnot
    rw [hr]
    refine List.mem_filter.mpr ⟨ha, ?_⟩
    simpa [List.contains] using hnot
  · intro a ha hin
    rw [hr]
    intro hmem
    have := List.of_mem_filter hmem
    simp [List.contains] at this
    exact this hin

/-- C7 witness: scenario C of the spec — pending ids 1, 2, 3 and a final
result reporting id 2 missing. -/
theorem attachment_reconciliation_witness :
    (reconcileAttachments [⟨"1", "a", 1⟩, ⟨"2", "b", 2⟩, ⟨"3", "c", 3⟩]
          (some ["2"])).2 = 1 ∧
      List.Sublist
        (reconcileAttachments [⟨"1", "a", 1⟩, ⟨"2", "b", 2⟩, ⟨"3", "c", 3⟩]
            (some ["2"])).1
        [⟨"1", "a", 1⟩, ⟨"2", "b", 2⟩, ⟨"3", "c", 3⟩] ∧
      (∀ a ∈ (reconcileAttachments [⟨"1", "a", 1⟩, ⟨"2", "b", 2⟩, ⟨"3", "c", 3⟩]
            (some ["2"])).1, a.id ∉ ["2"]) ∧
      (∀ a ∈ [(⟨"1", "a", 1⟩ : Attachment), ⟨"2", "b", 2⟩, ⟨"3", "c", 3⟩],
        a.id ∉ ["2"] →
          a ∈ (reconcileAttachments [⟨"1", "a", 1⟩, ⟨"2", "b", 2⟩, ⟨"3", "c", 3⟩]
              (some ["2"])).1) ∧
      (∀ a ∈ [(⟨"1", "a", 1⟩ : Attachment), ⟨"2", "b", 2⟩, ⟨"3", "c", 3⟩],
        a.id ∈ ["2"] →
          a ∉ (reconcileAttachments [⟨"1", "a", 1⟩, ⟨"2", "b", 2⟩, ⟨"3", "c", 3⟩]
              (some ["2"])).1) ∧
      reconcileAttachments [⟨"1", "a", 1⟩, ⟨"2", "b", 2⟩, ⟨"3", "c", 3⟩]
          (some []) = ([⟨"1", "a", 1⟩, ⟨"2", "b", 2⟩, ⟨"3", "c", 3⟩], 0) ∧
      reconcileAttachments [⟨"1", "a", 1⟩, ⟨"2", "b", 2⟩, ⟨"3", "c", 3⟩]
          none = ([⟨"1", "a", 1⟩, ⟨"2", "b", 2⟩, ⟨"3", "c", 3⟩], 0) :=
  attachment_reconciliation [⟨"1", "a", 1⟩, ⟨"2", "b", 2⟩, ⟨"3", "c", 3⟩]
    ["2"] (by decide)

/-! ### Post-final effects and the foreground gate -/

/-- C8, amended: only the session-list metadata refresh is unconditional
on the success path of `sendMessage`; the Aggregate Accounting update
(`renderTokenStats` with the run's usage payloads) and the other
UI-facing updates fire only while the originating session is still
foreground. -/
theorem session_list_refresh_unconditional (fg : Bool) :
    RunEffect.sessionHistoryRefresh ∈ successPathEffects fg ∧
      (RunEffect.tokenStatsRender ∈ successPathEffects fg ↔ fg = true) ∧
      (RunEffect.uiMessageRender ∈ successPathEffects fg ↔ fg = true) := by
  cases fg <;> decide

/-- C8 counterexample: for a backgrounded run the session-list refresh
still fires but the token-stats update does not, so the claim that
both durable effects are performed regardless of foreground status is
false on the code. -/
theorem background_aggregate_update_counterexample :
    RunEffect.sessionHistoryRefresh ∈ successPathEffects false ∧
      RunEffect.tokenStatsRender ∉ successPathEffects false := by
  decide

end OfficetoolClient
